import Mathlib

/-!
Verification of the OmarTariq612/tftp-server repository: a shallow
embedding of the packet codec (`server/types.go`) and of the dispatcher
and per-client transfer session (`server/server.go`), together with
theorems settling the specification claims.

Modelling conventions:
- a Go byte is a `Nat` (real wire data carries values below 256);
- Go `uint16` arithmetic is explicit `% 65536`;
- Go strings are byte lists (`strings.ToLower` is modelled on ASCII
  letters, which agrees with Go on every buffer whose lowercasing can
  equal `"octet"`);
- fallible decoders return `Option`; a Go slice-bounds panic is modelled
  as an explicit `DataDecode.panicked` outcome;
- the session's interaction with the client is a reply stream
  `Nat → Reply` indexed by the read count.
-/

namespace TFTP

abbrev Byte := Nat

/-- Big-endian bytes of a `uint16` value, as written by
`binary.Write(buf, binary.BigEndian, x)` for a 16-bit `x`. -/
def u16be (n : Nat) : List Byte := [n % 65536 / 256, n % 256]

/-- Opcode `ReadOp = 1` from `types.go`. -/
def ReadOp : Nat := 1

/-- Opcode `WriteOp = 2` from `types.go`. -/
def WriteOp : Nat := 2

/-- Opcode `DataOp = 3` from `types.go`. -/
def DataOp : Nat := 3

/-- Opcode `AcknowledgmentOp = 4` from `types.go`. -/
def AcknowledgmentOp : Nat := 4

/-- Opcode `ErrorOp = 5` from `types.go`. -/
def ErrorOp : Nat := 5

/-- Error code `ErrIllegalOp = 4` from `types.go`. -/
def ErrIllegalOp : Nat := 4

/-- `DatagramSize = 516` from `server.go`. -/
def DatagramSize : Nat := 516

/-- `BlockSize = DatagramSize - 4` from `server.go`. -/
def BlockSize : Nat := DatagramSize - 4

/-- ASCII lowercasing of one byte, the effect of Go's `strings.ToLower`
on ASCII letters. -/
def asciiLower (b : Byte) : Byte := if 65 ≤ b ∧ b ≤ 90 then b + 32 else b

/-- The bytes of the string `"octet"`. -/
def octetBytes : List Byte := [111, 99, 116, 101, 116]

/-- Model of `bytes.Buffer.ReadString(0)` followed by
`strings.TrimRight(s, "\x00")`: the bytes before the first NUL and the
remainder after it; `none` when no NUL byte exists (Go returns a non-nil
`io.EOF` error, which every caller in this repository treats as failure). -/
def readString0 : List Byte → Option (List Byte × List Byte)
  | [] => none
  | b :: rest =>
    if b = 0 then some ([], rest)
    else
      match readString0 rest with
      | some (s, r2) => some (b :: s, r2)
      | none => none

/-- `ReadWriteRequest` from `types.go`; `Filename` and `Mode` are Go
strings, modelled as byte lists. -/
structure ReadWriteRequest where
  Filename : List Byte
  Mode : List Byte
  deriving DecidableEq

/-- `ReadWriteRequest.MarshalBinary` from `types.go`: opcode `ReadOp`,
filename, NUL, mode (defaulting to `"octet"` when unset), NUL.  Writes
into a `bytes.Buffer` never fail, so encoding is total. -/
def ReadWriteRequest.MarshalBinary (r : ReadWriteRequest) : List Byte :=
  let mode := if r.Mode = [] then octetBytes else r.Mode
  u16be ReadOp ++ r.Filename ++ [0] ++ mode ++ [0]

/-- `ReadWriteRequest.UnmarshalBinary` from `types.go`: reads a
big-endian opcode (error when fewer than two bytes remain), requires it
to be `ReadOp` or `WriteOp`, reads the NUL-terminated filename (error
when empty or unterminated), reads the NUL-terminated mode, lowercases
it and requires it to equal `"octet"`. -/
def ReadWriteRequest.UnmarshalBinary (buf : List Byte) : Option ReadWriteRequest :=
  match buf with
  | b0 :: b1 :: rest =>
    if b0 * 256 + b1 = ReadOp ∨ b0 * 256 + b1 = WriteOp then
      match readString0 rest with
      | some (fname, rest2) =>
        if fname = [] then none
        else
          match readString0 rest2 with
          | some (mode, _) =>
            if mode.map asciiLower = octetBytes then
              some ⟨fname, mode.map asciiLower⟩
            else none
          | none => none
      | none => none
    else none
  | _ => none

/-- `Data` from `types.go`: the session-local block counter together
with the read cursor of the `Payload` reader (`bytes.Reader` position
into the served payload). -/
structure Data where
  BlockNum : Nat
  pos : Nat
  deriving DecidableEq

/-- `Data.MarshalBinary` from `types.go`: increments `BlockNum` (uint16
wrap-around), writes opcode `DataOp`, the new `BlockNum`, then up to 512
bytes copied from the payload cursor (`io.CopyN`; reaching end of
payload is not an error).  Returns the packet bytes and the mutated
receiver. -/
def Data.MarshalBinary (payload : List Byte) (d : Data) : List Byte × Data :=
  let bn := (d.BlockNum + 1) % 65536
  let chunk := List.take BlockSize (List.drop d.pos payload)
  (u16be DataOp ++ u16be bn ++ chunk, ⟨bn, d.pos + chunk.length⟩)

/-- The decoded view produced by `Data.UnmarshalBinary`: block number
and payload view. -/
structure DataView where
  BlockNum : Nat
  Payload : List Byte
  deriving DecidableEq

/-- Outcome of `Data.UnmarshalBinary`: a decoded value, a returned
error, or a Go runtime panic (slice bounds out of range). -/
inductive DataDecode where
  | ok (v : DataView)
  | errRes
  | panicked
  deriving DecidableEq

/-- `Data.UnmarshalBinary` from `types.go`.  The Go code slices
`buf[:2]` before reading the opcode and `buf[2:4]` before reading the
block number; on a buffer whose capacity equals its length (as for any
exact allocation) those slicings panic when the buffer is shorter than 2
resp. 4 bytes. -/
def Data.UnmarshalBinary (buf : List Byte) : DataDecode :=
  if buf.length < 2 then .panicked
  else
    match buf with
    | b0 :: b1 :: rest =>
      if b0 * 256 + b1 = DataOp then
        match rest with
        | c0 :: c1 :: payload => .ok ⟨c0 * 256 + c1, payload⟩
        | _ => .panicked
      else .errRes
    | _ => .panicked

/-- `Acknowledgment` from `types.go`. -/
structure Acknowledgment where
  BlockNum : Nat
  deriving DecidableEq

/-- `Acknowledgment.MarshalBinary` from `types.go`: opcode
`AcknowledgmentOp` then the big-endian block number. -/
def Acknowledgment.MarshalBinary (a : Acknowledgment) : List Byte :=
  u16be AcknowledgmentOp ++ u16be a.BlockNum

/-- `Acknowledgment.UnmarshalBinary` from `types.go`: reads the opcode
(error when fewer than two bytes remain), requires `AcknowledgmentOp`,
then reads the big-endian block number (error when fewer than two bytes
remain). -/
def Acknowledgment.UnmarshalBinary (buf : List Byte) : Option Acknowledgment :=
  match buf with
  | b0 :: b1 :: rest =>
    if b0 * 256 + b1 = AcknowledgmentOp then
      match rest with
      | c0 :: c1 :: _ => some ⟨c0 * 256 + c1⟩
      | _ => none
    else none
  | _ => none

/-- `Err` from `types.go`. -/
structure Err where
  Code : Nat
  Message : List Byte
  deriving DecidableEq

/-- `Err.MarshalBinary` from `types.go`: opcode `ErrorOp`, the error
code, the message, a terminating NUL. -/
def Err.MarshalBinary (e : Err) : List Byte :=
  u16be ErrorOp ++ u16be e.Code ++ e.Message ++ [0]

/-- `Err.UnmarshalBinary` from `types.go`: reads the opcode (error when
short), requires `ErrorOp`, reads the error code (error when short),
reads the NUL-terminated message and strips trailing NULs; a missing
terminator surfaces the read error. -/
def Err.UnmarshalBinary (buf : List Byte) : Option Err :=
  match buf with
  | b0 :: b1 :: rest =>
    if b0 * 256 + b1 = ErrorOp then
      match rest with
      | c0 :: c1 :: rest2 =>
        match readString0 rest2 with
        | some (msg, _) => some ⟨c0 * 256 + c1, msg⟩
        | none => none
      | _ => none
    else none
  | _ => none

/-- The exact bytes `ListenAndServe` writes back on a request-decode
failure: `[]byte{byte(ErrorOp), byte(ErrIllegalOp), 0}` from
`server.go` line 52. -/
def dispatcherErrorReply : List Byte := [ErrorOp, ErrIllegalOp, 0]

/-- One read outcome observed by `TFTPServer.handle` while waiting for a
reply: a deadline expiry, a non-timeout read failure, or a received
datagram.  The datagram bytes are the session's 516-byte read buffer, so
a `packet` always carries at least two bytes in the server. -/
inductive Reply where
  | timeout
  | readFailure
  | packet (buf : List Byte)

/-- How one iteration of the `RETRIES` loop in `TFTPServer.handle`
classifies the read outcome: consume a retry attempt and loop
(`continue RETRIES` or falling off the `switch`), advance to the next
block (`continue NEXT_PACKET`), or abandon the session (`return`). -/
inductive AttemptRes where
  | retryAttempt
  | advance
  | abandon
  deriving DecidableEq

/-- `binary.BigEndian.Uint16(buf[:2])`: the big-endian value of the
first two bytes of the reply buffer (which in the server always holds
516 bytes). -/
def replyCode : List Byte → Nat
  | b0 :: b1 :: _ => b0 * 256 + b1
  | [b0] => b0 * 256
  | [] => 0

/-- The body of one `RETRIES` iteration in `TFTPServer.handle`, after
the write: timeout → retry; other read failure → return; otherwise
dispatch on `binary.BigEndian.Uint16(buf[:2])`: a matching
`Acknowledgment` advances, a mismatched one falls through and consumes
the attempt, a decoded `Err` returns, undecodable or unrecognized
packets consume the attempt. -/
def classify (bn : Nat) : Reply → AttemptRes
  | .timeout => .retryAttempt
  | .readFailure => .abandon
  | .packet buf =>
    if replyCode buf = AcknowledgmentOp then
      match Acknowledgment.UnmarshalBinary buf with
      | some a => if a.BlockNum = bn then .advance else .retryAttempt
      | none => .retryAttempt
    else if replyCode buf = ErrorOp then
      match Err.UnmarshalBinary buf with
      | some _ => .abandon
      | none => .retryAttempt
    else .retryAttempt

/-- How the `RETRIES` loop for one block ends: a matching acknowledgment
(`continue NEXT_PACKET`), a fatal condition (`return` from inside the
loop), or an exhausted retry budget (`return` after the loop). -/
inductive RetryOutcome where
  | advanced
  | abandoned
  | exhausted
  deriving DecidableEq

/-- The `RETRIES` loop of `TFTPServer.handle` for one block: `bn` is the
current `dataM.BlockNum`, `σ` the client reply stream, `k` the number of
reads performed so far, and the last argument the remaining attempts
(`retries - i`).  Each iteration writes the block's packet once and
reads once; the result is the number of transmissions of this block and
how the loop ended. -/
def retryLoop (bn : Nat) (σ : Nat → Reply) : Nat → Nat → Nat × RetryOutcome
  | _, 0 => (0, .exhausted)
  | k, fuel + 1 =>
    match classify bn (σ k) with
    | .retryAttempt =>
      let r := retryLoop bn σ (k + 1) fuel
      (r.1 + 1, r.2)
    | .advance => (1, .advanced)
    | .abandon => (1, .abandoned)

/-- How a session ends: the whole payload was sent and acknowledged, or
the session gave up (read failure, peer error, or exhausted retries). -/
inductive Outcome where
  | completed
  | aborted
  deriving DecidableEq

/-- One block's visible activity: the block number on the wire, the
payload chunk carried, and how many times its packet was transmitted. -/
structure BlockSend where
  num : Nat
  chunk : List Byte
  count : Nat
  deriving DecidableEq

/-- The `NEXT_PACKET` loop of `TFTPServer.handle`: marshal the next
block (advancing the block counter and payload cursor), run the
`RETRIES` loop for it, and continue with the next block exactly when the
written datagram was full-size (`n == DatagramSize`) and a matching
acknowledgment arrived.  Returns the per-block send trace and the
session outcome. -/
def runBlocks (payload : List Byte) (retries : Nat) (σ : Nat → Reply) (d : Data) (k : Nat) :
    List BlockSend × Outcome :=
  let m := Data.MarshalBinary payload d
  let r := retryLoop m.2.BlockNum σ k retries
  if h : m.1.length = DatagramSize ∧ r.2 = .advanced then
    let rest := runBlocks payload retries σ m.2 (k + r.1)
    (⟨m.2.BlockNum, m.1.drop 4, r.1⟩ :: rest.1, rest.2)
  else
    ([⟨m.2.BlockNum, m.1.drop 4, r.1⟩],
      if r.2 = .advanced then .completed else .aborted)
  termination_by payload.length - d.pos
  decreasing_by
    have h2 : (Data.MarshalBinary payload d).1.length = DatagramSize := h.1
    simp only [Data.MarshalBinary, List.length_append, u16be, DatagramSize, BlockSize,
      List.length_cons, List.length_take, List.length_drop, List.length_nil] at h2 ⊢
    omega

/-- A whole session of `TFTPServer.handle` serving `payload` against the
reply stream `σ`: the block counter starts at 0 and the payload cursor
at the beginning (`dataM = Data{Payload: bytes.NewReader(s.payload)}`). -/
def runSession (payload : List Byte) (retries : Nat) (σ : Nat → Reply) :
    List BlockSend × Outcome :=
  runBlocks payload retries σ ⟨0, 0⟩ 0

/-- A client Acknowledgment datagram for block `bn` as it appears in the
session's 516-byte read buffer (trailing bytes zero). -/
def ackBuf (bn : Nat) : List Byte := u16be AcknowledgmentOp ++ u16be bn ++ List.replicate 512 0

/-- The reply stream of a client that acknowledges every block: with one
attempt per block, the `k`-th read sees the acknowledgment of block
`k + 1` (mod 65536). -/
def ackClient : Nat → Reply := fun k => .packet (ackBuf ((k + 1) % 65536))

/-! ### Codec lemmas -/

lemma readString0_append (s rest : List Byte) (h : (0 : Byte) ∉ s) :
    readString0 (s ++ 0 :: rest) = some (s, rest) := by
  induction s with
  | nil => simp [readString0]
  | cons b t ih =>
    have hb : b ≠ 0 := fun hb => h (hb ▸ List.mem_cons_self b t)
    have ht : (0 : Byte) ∉ t := fun hm => h (List.mem_cons_of_mem b hm)
    simp [readString0, hb, ih ht]

/-- Claim C9 (code_bug evidence).  `Data.UnmarshalBinary` is not total:
on the empty buffer the Go code panics at `buf[:2]`, and on a 3-byte
buffer bearing the Data opcode it panics at `buf[2:4]` (slice bounds out
of range, for any buffer whose capacity equals its length); a buffer of
length at least 4 decodes normally. -/
theorem dataDecode_short_buffer_panics :
    Data.UnmarshalBinary [] = .panicked ∧
    Data.UnmarshalBinary [0, 3, 9] = .panicked ∧
    Data.UnmarshalBinary [0, 3, 0, 1, 7] = .ok ⟨1, [7]⟩ := by
  refine ⟨rfl, by decide, by decide⟩

/-- Claim C2 (code_bug evidence).  On a request-decode failure (for
example the garbage datagram `[1, 2, 3]` in the 516-byte receive
buffer), the dispatcher replies with `dispatcherErrorReply = [5, 4, 0]`;
that reply is not a well-formed Error packet: the repository's own
decoder rejects it (its leading 16-bit opcode is 1284, not `ErrorOp`),
and it differs from the encoding of the IllegalOperation Error packet
with empty message, which is `[0, 5, 0, 4, 0]`. -/
theorem dispatcher_reply_not_wellformed :
    ReadWriteRequest.UnmarshalBinary ((1 : Byte) :: 2 :: 3 :: List.replicate 513 0) = none ∧
    Err.UnmarshalBinary dispatcherErrorReply = none ∧
    dispatcherErrorReply ≠ Err.MarshalBinary ⟨ErrIllegalOp, []⟩ := by
  refine ⟨rfl, by decide, by decide⟩

/-- Claim C10 (confirmed).  Encoding an `Acknowledgment` (whose
`BlockNum` is a `uint16`, hence below 65536) yields exactly 4 bytes —
opcode 4 then the block number big-endian — and decoding that encoding
returns the original value. -/
theorem ack_roundtrip (a : Acknowledgment) (h : a.BlockNum < 65536) :
    (Acknowledgment.MarshalBinary a).length = 4 ∧
    Acknowledgment.MarshalBinary a
      = [0, 4, a.BlockNum / 256, a.BlockNum % 256] ∧
    Acknowledgment.UnmarshalBinary (Acknowledgment.MarshalBinary a) = some a := by
  obtain ⟨bn⟩ := a
  have h1 : bn % 65536 = bn := Nat.mod_eq_of_lt h
  refine ⟨by simp [Acknowledgment.MarshalBinary, u16be], ?_, ?_⟩
  · simp [Acknowledgment.MarshalBinary, u16be, AcknowledgmentOp, h1]
  · simp only [Acknowledgment.MarshalBinary, u16be, AcknowledgmentOp, h1]
    norm_num [Acknowledgment.UnmarshalBinary, AcknowledgmentOp]
    omega

/-- Witness for `ack_roundtrip` at block number 513. -/
theorem ack_roundtrip_check :
    (Acknowledgment.MarshalBinary ⟨513⟩).length = 4 ∧
    Acknowledgment.MarshalBinary ⟨513⟩ = [0, 4, 513 / 256, 513 % 256] ∧
    Acknowledgment.UnmarshalBinary (Acknowledgment.MarshalBinary ⟨513⟩) = some ⟨513⟩ :=
  ack_roundtrip ⟨513⟩ (by decide)

/-- Claim C4 (counterexample).  The round-trip fails for a request whose
filename contains an interior NUL byte: for `Filename = "a\x00b"` and
`Mode = "octet"` the decoder splits the filename at the first NUL, takes
`"b"` as the mode, and rejects the request — decoding the encoding does
not succeed, contrary to the claim, which assumes any non-empty
filename. -/
theorem request_roundtrip_nul_filename :
    ReadWriteRequest.UnmarshalBinary
      (ReadWriteRequest.MarshalBinary ⟨[97, 0, 98], octetBytes⟩) = none := by
  decide

/-- Claim C4 (amended).  For a request whose filename is non-empty and
free of NUL bytes, and whose mode is `"octet"` up to ASCII letter casing
(or unset, defaulting to `"octet"`), decoding the encoding succeeds and
returns the request with its mode normalized to lowercase `"octet"`. -/
theorem request_roundtrip (r : ReadWriteRequest) (hne : r.Filename ≠ [])
    (h0 : (0 : Byte) ∉ r.Filename)
    (hm : r.Mode = [] ∨ r.Mode.map asciiLower = octetBytes) :
    ReadWriteRequest.UnmarshalBinary (ReadWriteRequest.MarshalBinary r)
      = some ⟨r.Filename, octetBytes⟩ := by
  obtain ⟨f, m⟩ := r
  simp only at hne h0 hm
  have hbytes : ReadWriteRequest.MarshalBinary ⟨f, m⟩
      = 0 :: 1 :: (f ++ 0 :: ((if m = [] then octetBytes else m) ++ 0 :: [])) := by
    simp [ReadWriteRequest.MarshalBinary, u16be, ReadOp]
  have hmode0 : (0 : Byte) ∉ (if m = [] then octetBytes else m) := by
    rcases hm with h | h
    · simp [h]; decide
    · have hm_ne : m ≠ [] := by
        intro he
        rw [he] at h
        exact absurd h (by decide)
      rw [if_neg hm_ne]
      intro hmem
      have : asciiLower 0 ∈ m.map asciiLower := List.mem_map_of_mem asciiLower hmem
      rw [h] at this
      exact absurd this (by decide)
  have hmodeoct : (if m = [] then octetBytes else m).map asciiLower = octetBytes := by
    rcases hm with h | h
    · simp [h]; decide
    · have hm_ne : m ≠ [] := by
        intro he
        rw [he] at h
        exact absurd h (by decide)
      simp [hm_ne, h]
  rw [hbytes]
  simp only [ReadWriteRequest.UnmarshalBinary, ReadOp, WriteOp]
  rw [readString0_append f _ h0]
  simp only [hne, if_neg hne]
  rw [readString0_append _ _ hmode0]
  simp [hmodeoct]

/-- Witness for `request_roundtrip` with filename `"a"` and mode
`"OCTET"`. -/
theorem request_roundtrip_check :
    ReadWriteRequest.UnmarshalBinary
        (ReadWriteRequest.MarshalBinary ⟨[97], [79, 67, 84, 69, 84]⟩)
      = some ⟨[97], octetBytes⟩ :=
  request_roundtrip ⟨[97], [79, 67, 84, 69, 84]⟩ (by decide) (by decide)
    (Or.inr (by decide))

/-- Claim C5 (confirmed).  Request decoding succeeds exactly when the
buffer starts with two opcode bytes whose big-endian value is `ReadOp`
or `WriteOp`, a NUL-terminated filename follows and is non-empty, a
NUL-terminated mode follows, and the mode lowercases to `"octet"`;
every other buffer is rejected. -/
theorem decodeRequest_success_conditions (buf : List Byte) :
    (ReadWriteRequest.UnmarshalBinary buf).isSome ↔
      ∃ b0 b1 rest fname rest2 mode rest3,
        buf = b0 :: b1 :: rest ∧
        (b0 * 256 + b1 = ReadOp ∨ b0 * 256 + b1 = WriteOp) ∧
        readString0 rest = some (fname, rest2) ∧ fname ≠ [] ∧
        readString0 rest2 = some (mode, rest3) ∧
        mode.map asciiLower = octetBytes := by
  constructor
  · intro h
    match buf with
    | [] => simp [ReadWriteRequest.UnmarshalBinary] at h
    | [b0] => simp [ReadWriteRequest.UnmarshalBinary] at h
    | b0 :: b1 :: rest =>
      simp only [ReadWriteRequest.UnmarshalBinary] at h
      by_cases hop : b0 * 256 + b1 = ReadOp ∨ b0 * 256 + b1 = WriteOp
      · rw [if_pos hop] at h
        rcases h1 : readString0 rest with _ | ⟨fname, rest2⟩
        · rw [h1] at h; simp at h
        · rw [h1] at h
          by_cases hfe : fname = []
          · simp [hfe] at h
          · rcases h2 : readString0 rest2 with _ | ⟨mode, rest3⟩
            · simp [hfe, h2] at h
            · by_cases hoct : mode.map asciiLower = octetBytes
              · exact ⟨b0, b1, rest, fname, rest2, mode, rest3, rfl, hop, h1, hfe,
                  h2, hoct⟩
              · simp [hfe, h2, hoct] at h
      · rw [if_neg hop] at h; simp at h
  · rintro ⟨b0, b1, rest, fname, rest2, mode, rest3, rfl, hop, h1, hfe, h2, hoct⟩
    simp [ReadWriteRequest.UnmarshalBinary, hop, h1, hfe, h2, hoct]

/-- Witness for `decodeRequest_success_conditions` on the buffer
encoding a read request for file `"a"` in octet mode. -/
theorem decodeRequest_success_conditions_check :
    (ReadWriteRequest.UnmarshalBinary
      [0, 1, 97, 0, 111, 99, 116, 101, 116, 0]).isSome :=
  (decodeRequest_success_conditions
      [0, 1, 97, 0, 111, 99, 116, 101, 116, 0]).mpr
    ⟨0, 1, [97, 0, 111, 99, 116, 101, 116, 0], [97], [111, 99, 116, 101, 116, 0],
      [111, 99, 116, 101, 116], [], rfl, Or.inl (by decide), by decide, by decide,
      by decide, by decide⟩

/-! ### Session lemmas -/

lemma retryLoop_le (bn : Nat) (σ : Nat → Reply) :
    ∀ fuel k, (retryLoop bn σ k fuel).1 ≤ fuel := by
  intro fuel
  induction fuel with
  | zero => intro k; simp [retryLoop]
  | succ n ih =>
    intro k
    simp only [retryLoop]
    cases classify bn (σ k) with
    | retryAttempt => simpa using ih (k + 1)
    | advance => simp
    | abandon => simp

lemma retryLoop_timeout (bn : Nat) :
    ∀ fuel k, retryLoop bn (fun _ => .timeout) k fuel = (fuel, .exhausted) := by
  intro fuel
  induction fuel with
  | zero => intro k; simp [retryLoop]
  | succ n ih => intro k; simp [retryLoop, classify, ih (k + 1)]

set_option maxRecDepth 8192 in
lemma ackBuf_eq (bn : Nat) (h : bn < 65536) :
    ackBuf bn = 0 :: 4 :: (bn / 256) :: (bn % 256) :: List.replicate 512 0 := by
  simp [ackBuf, u16be, AcknowledgmentOp, Nat.mod_eq_of_lt h]

lemma ackBuf_unmarshal (bn : Nat) (h : bn < 65536) :
    Acknowledgment.UnmarshalBinary (ackBuf bn) = some ⟨bn⟩ := by
  rw [ackBuf_eq bn h]
  norm_num [Acknowledgment.UnmarshalBinary, AcknowledgmentOp]
  omega

lemma replyCode_ackBuf (bn : Nat) (h : bn < 65536) :
    replyCode (ackBuf bn) = AcknowledgmentOp := by
  rw [ackBuf_eq bn h]
  simp [replyCode, AcknowledgmentOp]

lemma classify_ackBuf (bn : Nat) (h : bn < 65536) :
    classify bn (.packet (ackBuf bn)) = .advance := by
  simp only [classify, replyCode_ackBuf bn h, ackBuf_unmarshal bn h]
  simp

lemma retryLoop_advance_of_classify (bn : Nat) (σ : Nat → Reply) (k fuel : Nat)
    (hf : 1 ≤ fuel) (h : classify bn (σ k) = .advance) :
    retryLoop bn σ k fuel = (1, .advanced) := by
  obtain ⟨m, rfl⟩ : ∃ m, fuel = m + 1 := ⟨fuel - 1, by omega⟩
  simp [retryLoop, h]

/-- One unfolding of `runBlocks`, stated with a plain `if`. -/
lemma runBlocks_step (payload : List Byte) (retries : Nat) (σ : Nat → Reply)
    (d : Data) (k : Nat) :
    runBlocks payload retries σ d k =
      (let m := Data.MarshalBinary payload d
       let r := retryLoop m.2.BlockNum σ k retries
       if m.1.length = DatagramSize ∧ r.2 = .advanced then
         let rest := runBlocks payload retries σ m.2 (k + r.1)
         (⟨m.2.BlockNum, m.1.drop 4, r.1⟩ :: rest.1, rest.2)
       else
         ([⟨m.2.BlockNum, m.1.drop 4, r.1⟩],
           if r.2 = .advanced then .completed else .aborted)) := by
  rw [runBlocks]
  simp only [dite_eq_ite]

lemma marshal_snd (payload : List Byte) (d : Data) :
    (Data.MarshalBinary payload d).2
      = ⟨(d.BlockNum + 1) % 65536, d.pos + min 512 (payload.length - d.pos)⟩ := by
  simp [Data.MarshalBinary, BlockSize, DatagramSize]

lemma marshal_fst_drop (payload : List Byte) (d : Data) :
    (Data.MarshalBinary payload d).1.drop 4
      = List.take 512 (List.drop d.pos payload) := rfl

lemma marshal_len (payload : List Byte) (d : Data) :
    (Data.MarshalBinary payload d).1.length
      = 4 + min 512 (payload.length - d.pos) := by
  simp [Data.MarshalBinary, u16be, BlockSize, DatagramSize]
  omega

lemma marshal_len_ne (payload : List Byte) (d : Data)
    (h : payload.length - d.pos < 512) :
    (Data.MarshalBinary payload d).1.length ≠ DatagramSize := by
  rw [marshal_len]
  simp [DatagramSize]
  omega

lemma marshal_len_eq (payload : List Byte) (d : Data)
    (h : 512 ≤ payload.length - d.pos) :
    (Data.MarshalBinary payload d).1.length = DatagramSize := by
  rw [marshal_len]
  simp [DatagramSize]
  omega

lemma retryLoop_ackClient (payload : List Byte) (retries : Nat) (hr : 1 ≤ retries)
    (d : Data) (k : Nat) (hbn : d.BlockNum = k % 65536) :
    retryLoop (Data.MarshalBinary payload d).2.BlockNum ackClient k retries
      = (1, .advanced) := by
  have hbn2 : (Data.MarshalBinary payload d).2.BlockNum = (k + 1) % 65536 := by
    rw [marshal_snd]
    simp [hbn, Nat.mod_add_mod]
  rw [hbn2]
  refine retryLoop_advance_of_classify _ _ _ _ hr ?_
  simpa [ackClient] using classify_ackBuf ((k + 1) % 65536) (Nat.mod_lt _ (by norm_num))

lemma runBlocks_ackClient_term (payload : List Byte) (retries : Nat) (hr : 1 ≤ retries)
    (d : Data) (k : Nat) (hbn : d.BlockNum = k % 65536)
    (hrem : payload.length - d.pos < 512) :
    runBlocks payload retries ackClient d k
      = ([⟨(k + 1) % 65536, List.take 512 (List.drop d.pos payload), 1⟩], .completed) := by
  rw [runBlocks_step]
  simp only [retryLoop_ackClient payload retries hr d k hbn, and_true]
  rw [if_neg (marshal_len_ne payload d hrem)]
  simp [marshal_fst_drop, marshal_snd, hbn, Nat.mod_add_mod]

lemma runBlocks_ackClient_rec (payload : List Byte) (retries : Nat) (hr : 1 ≤ retries)
    (d : Data) (k : Nat) (hbn : d.BlockNum = k % 65536)
    (hrem : 512 ≤ payload.length - d.pos) :
    runBlocks payload retries ackClient d k
      = (⟨(k + 1) % 65536, List.take 512 (List.drop d.pos payload), 1⟩ ::
          (runBlocks payload retries ackClient ⟨(k + 1) % 65536, d.pos + 512⟩ (k + 1)).1,
        (runBlocks payload retries ackClient ⟨(k + 1) % 65536, d.pos + 512⟩ (k + 1)).2) := by
  rw [runBlocks_step]
  simp only [retryLoop_ackClient payload retries hr d k hbn, and_true]
  rw [if_pos (marshal_len_eq payload d hrem)]
  have hm2 : (Data.MarshalBinary payload d).2 = ⟨(k + 1) % 65536, d.pos + 512⟩ := by
    rw [marshal_snd]
    simp [hbn, Nat.mod_add_mod]
    omega
  simp [marshal_fst_drop, hm2, hbn, Nat.mod_add_mod]

lemma runBlocks_ackClient (payload : List Byte) (retries : Nat) (hr : 1 ≤ retries) :
    ∀ n d k, payload.length - d.pos ≤ n → d.pos ≤ payload.length →
      d.BlockNum = k % 65536 →
      (runBlocks payload retries ackClient d k).2 = .completed ∧
      (runBlocks payload retries ackClient d k).1.length
        = (payload.length - d.pos) / 512 + 1 ∧
      (∀ b ∈ (runBlocks payload retries ackClient d k).1, b.count = 1) ∧
      ((runBlocks payload retries ackClient d k).1.getLast?.map fun b => b.chunk.length)
        = some ((payload.length - d.pos) % 512) := by
  intro n
  induction n with
  | zero =>
    intro d k hn hp hbn
    have hrem : payload.length - d.pos < 512 := by omega
    rw [runBlocks_ackClient_term payload retries hr d k hbn hrem]
    refine ⟨rfl, by simp [Nat.div_eq_of_lt hrem], by simp, ?_⟩
    simp [List.getLast?, List.length_take, List.length_drop, Nat.mod_eq_of_lt hrem]
    omega
  | succ n ih =>
    intro d k hn hp hbn
    by_cases hrem : 512 ≤ payload.length - d.pos
    · rw [runBlocks_ackClient_rec payload retries hr d k hbn hrem]
      obtain ⟨ho, hl, hc, hlast⟩ :=
        ih ⟨(k + 1) % 65536, d.pos + 512⟩ (k + 1) (by simp; omega) (by simp; omega)
          (by simp [Nat.mod_add_mod])
      have hpos : (payload.length - (d.pos + 512)) = payload.length - d.pos - 512 := by
        omega
      refine ⟨ho, ?_, ?_, ?_⟩
      · simp only [List.length_cons, hl]
        rw [Nat.div_eq_sub_div (by norm_num) hrem]
        omega
      · intro b hb
        rcases List.mem_cons.mp hb with hb | hb
        · rw [hb]
        · exact hc b hb
      · rcases hsplit : (runBlocks payload retries ackClient
            ⟨(k + 1) % 65536, d.pos + 512⟩ (k + 1)).1 with _ | ⟨y, l⟩
        · rw [hsplit] at hl
          simp at hl
        · rw [hsplit] at hlast
          simp only [hsplit, List.getLast?_cons_cons]
          rw [hlast, hpos, Nat.mod_eq_sub_mod hrem]
    · have hrem2 : payload.length - d.pos < 512 := by omega
      rw [runBlocks_ackClient_term payload retries hr d k hbn hrem2]
      refine ⟨rfl, by simp [Nat.div_eq_of_lt hrem2], by simp, ?_⟩
      simp [List.getLast?, List.length_take, List.length_drop, Nat.mod_eq_of_lt hrem2]
      omega

lemma runBlocks_eq_term (payload : List Byte) (retries : Nat) (σ : Nat → Reply)
    (d : Data) (k : Nat) (hrem : payload.length - d.pos < 512) :
    runBlocks payload retries σ d k
      = ([⟨(d.BlockNum + 1) % 65536, List.take 512 (List.drop d.pos payload),
            (retryLoop ((d.BlockNum + 1) % 65536) σ k retries).1⟩],
         if (retryLoop ((d.BlockNum + 1) % 65536) σ k retries).2 = .advanced
         then .completed else .aborted) := by
  rw [runBlocks_step]
  simp only [marshal_snd, marshal_fst_drop, marshal_len]
  have hlen : ¬ (4 + min 512 (payload.length - d.pos) = DatagramSize) := by
    simp [DatagramSize]
    omega
  rw [if_neg (fun hc => hlen hc.1)]

lemma runBlocks_eq_noadv (payload : List Byte) (retries : Nat) (σ : Nat → Reply)
    (d : Data) (k : Nat)
    (hadv : (retryLoop ((d.BlockNum + 1) % 65536) σ k retries).2 ≠ .advanced) :
    runBlocks payload retries σ d k
      = ([⟨(d.BlockNum + 1) % 65536, List.take 512 (List.drop d.pos payload),
            (retryLoop ((d.BlockNum + 1) % 65536) σ k retries).1⟩], .aborted) := by
  rw [runBlocks_step]
  simp only [marshal_snd, marshal_fst_drop, marshal_len]
  rw [if_neg (fun hc => hadv hc.2), if_neg hadv]

lemma runBlocks_eq_rec (payload : List Byte) (retries : Nat) (σ : Nat → Reply)
    (d : Data) (k : Nat) (hrem : 512 ≤ payload.length - d.pos)
    (hadv : (retryLoop ((d.BlockNum + 1) % 65536) σ k retries).2 = .advanced) :
    runBlocks payload retries σ d k
      = (⟨(d.BlockNum + 1) % 65536, List.take 512 (List.drop d.pos payload),
            (retryLoop ((d.BlockNum + 1) % 65536) σ k retries).1⟩ ::
          (runBlocks payload retries σ ⟨(d.BlockNum + 1) % 65536, d.pos + 512⟩
            (k + (retryLoop ((d.BlockNum + 1) % 65536) σ k retries).1)).1,
         (runBlocks payload retries σ ⟨(d.BlockNum + 1) % 65536, d.pos + 512⟩
            (k + (retryLoop ((d.BlockNum + 1) % 65536) σ k retries).1)).2) := by
  rw [runBlocks_step]
  simp only [marshal_snd, marshal_fst_drop, marshal_len]
  have hlen : 4 + min 512 (payload.length - d.pos) = DatagramSize := by
    simp [DatagramSize]
    omega
  rw [if_pos ⟨hlen, hadv⟩]
  rw [Nat.min_eq_left hrem]

lemma runBlocks_count_le (payload : List Byte) (retries : Nat) (σ : Nat → Reply) :
    ∀ n d k, payload.length - d.pos ≤ n →
      ∀ b ∈ (runBlocks payload retries σ d k).1, b.count ≤ retries := by
  intro n
  induction n with
  | zero =>
    intro d k hn b hb
    rw [runBlocks_eq_term payload retries σ d k (by omega)] at hb
    rcases List.mem_singleton.mp hb with rfl
    exact retryLoop_le _ _ _ _
  | succ n ih =>
    intro d k hn b hb
    by_cases hrem : 512 ≤ payload.length - d.pos
    · by_cases hadv :
        (retryLoop ((d.BlockNum + 1) % 65536) σ k retries).2 = .advanced
      · rw [runBlocks_eq_rec payload retries σ d k hrem hadv] at hb
        rcases List.mem_cons.mp hb with rfl | hb
        · exact retryLoop_le _ _ _ _
        · exact ih ⟨(d.BlockNum + 1) % 65536, d.pos + 512⟩ _ (by simp; omega) b hb
      · rw [runBlocks_eq_noadv payload retries σ d k hadv] at hb
        rcases List.mem_singleton.mp hb with rfl
        exact retryLoop_le _ _ _ _
    · rw [runBlocks_eq_term payload retries σ d k (by omega)] at hb
      rcases List.mem_singleton.mp hb with rfl
      exact retryLoop_le _ _ _ _

lemma runBlocks_get_num (payload : List Byte) (retries : Nat) (σ : Nat → Reply) :
    ∀ n d k, payload.length - d.pos ≤ n →
      ∀ i, i < (runBlocks payload retries σ d k).1.length →
        (((runBlocks payload retries σ d k).1.get? i).map fun b => b.num)
          = some ((d.BlockNum + i + 1) % 65536) := by
  intro n
  induction n with
  | zero =>
    intro d k hn i hi
    rw [runBlocks_eq_term payload retries σ d k (by omega)] at hi ⊢
    rcases i with _ | j
    · simp
    · simp at hi
  | succ n ih =>
    intro d k hn i hi
    by_cases hrem : 512 ≤ payload.length - d.pos
    · by_cases hadv :
        (retryLoop ((d.BlockNum + 1) % 65536) σ k retries).2 = .advanced
      · rw [runBlocks_eq_rec payload retries σ d k hrem hadv] at hi ⊢
        rcases i with _ | j
        · simp
        · simp only [List.length_cons, Nat.succ_lt_succ_iff] at hi
          simp only [List.get?_cons_succ]
          rw [ih ⟨(d.BlockNum + 1) % 65536, d.pos + 512⟩ _ (by simp; omega) j
            (by simpa using hi)]
          rw [Nat.add_assoc ((d.BlockNum + 1) % 65536) j 1, Nat.mod_add_mod]
          congr 2
          omega
      · rw [runBlocks_eq_noadv payload retries σ d k hadv] at hi ⊢
        rcases i with _ | j
        · simp
        · simp at hi
    · rw [runBlocks_eq_term payload retries σ d k (by omega)] at hi ⊢
      rcases i with _ | j
      · simp
      · simp at hi

/-- Claim C1 (confirmed).  Against a client that acknowledges every
block, a session serving a payload of length `L` completes, sends
exactly `L / 512 + 1` Data blocks (each transmitted once), and the
final block's payload length is `L % 512` — in particular an empty
terminating block is sent whenever `L` is a multiple of 512, including
`L = 0`. -/
theorem acking_client_sends (payload : List Byte) (retries : Nat) (hr : 1 ≤ retries) :
    (runSession payload retries ackClient).2 = .completed ∧
    (runSession payload retries ackClient).1.length = payload.length / 512 + 1 ∧
    (∀ b ∈ (runSession payload retries ackClient).1, b.count = 1) ∧
    ((runSession payload retries ackClient).1.getLast?.map fun b => b.chunk.length)
      = some (payload.length % 512) := by
  have h := runBlocks_ackClient payload retries hr payload.length ⟨0, 0⟩ 0
    (by simp) (by simp) (by simp)
  simpa [runSession] using h

/-- Witness for `acking_client_sends`: a 513-byte payload yields two
blocks, the second carrying one byte, and the session completes. -/
theorem acking_client_sends_check :
    (runSession (List.replicate 513 7) 10 ackClient).2 = .completed ∧
    (runSession (List.replicate 513 7) 10 ackClient).1.length
      = (List.replicate 513 (7 : Byte)).length / 512 + 1 ∧
    (∀ b ∈ (runSession (List.replicate 513 7) 10 ackClient).1, b.count = 1) ∧
    ((runSession (List.replicate 513 7) 10 ackClient).1.getLast?.map
        fun b => b.chunk.length)
      = some ((List.replicate 513 (7 : Byte)).length % 512) :=
  acking_client_sends (List.replicate 513 7) 10 (by norm_num)

/-- Claim C3 (counterexample).  A reply that fails to decode as either
an `Acknowledgment` or an `Err` does not abort the session: against a
client whose first reply is the undecodable buffer `[0, 1, 0, 0, ...]`
(leading 16-bit value 1, rejected by both decoders) and whose second
reply is a valid acknowledgment, a session serving the empty payload
retransmits block 1 — two transmissions — and then *completes*,
contradicting the claimed transition to Aborted with no further
transmission. -/
theorem undecodable_reply_not_fatal :
    Acknowledgment.UnmarshalBinary ((0 : Byte) :: 1 :: List.replicate 514 0) = none ∧
    Err.UnmarshalBinary ((0 : Byte) :: 1 :: List.replicate 514 0) = none ∧
    runSession [] 10
        (fun i => if i = 0 then .packet ((0 : Byte) :: 1 :: List.replicate 514 0)
                  else .packet (ackBuf 1))
      = ([⟨1, [], 2⟩], .completed) := by
  refine ⟨by decide, by decide, ?_⟩
  have hloop : retryLoop ((0 + 1) % 65536)
      (fun i => if i = 0 then .packet ((0 : Byte) :: 1 :: List.replicate 514 0)
                else .packet (ackBuf 1)) 0 10
      = (2, .advanced) := by decide
  rw [runSession, runBlocks_eq_term _ _ _ _ _ (by simp), hloop]
  simp

/-- Claim C3 (amended).  In `AwaitAck`, a read failure that is not a
timeout aborts the session at once (one transmission of the current
attempt, outcome abandoned, nothing further); a reply that fails to
decode as either an `Acknowledgment` or an `Err`, however, is treated
like a timeout: it consumes exactly one retry attempt and the loop
continues with the same block. -/
theorem awaitack_failure_handling (bn k fuel : Nat) (σ : Nat → Reply) :
    (σ k = .readFailure → retryLoop bn σ k (fuel + 1) = (1, .abandoned)) ∧
    (∀ buf, σ k = .packet buf →
      Acknowledgment.UnmarshalBinary buf = none →
      Err.UnmarshalBinary buf = none →
      retryLoop bn σ k (fuel + 1)
        = ((retryLoop bn σ (k + 1) fuel).1 + 1, (retryLoop bn σ (k + 1) fuel).2)) := by
  constructor
  · intro h
    simp [retryLoop, h, classify]
  · intro buf hp hA hE
    have hcl : classify bn (.packet buf) = .retryAttempt := by
      simp only [classify]
      by_cases h4 : replyCode buf = AcknowledgmentOp
      · simp [h4, hA]
      · by_cases h5 : replyCode buf = ErrorOp
        · simp [h4, h5, hE, ErrorOp, AcknowledgmentOp]
        · simp [h4, h5]
    simp [retryLoop, hp, hcl]

/-- Witness for `awaitack_failure_handling`: a read failure abandons the
block at once, and the undecodable two-byte reply `[9, 9]` consumes one
attempt and loops. -/
theorem awaitack_failure_handling_check :
    retryLoop 1 (fun _ => .readFailure) 0 10 = (1, .abandoned) ∧
    retryLoop 1 (fun _ => .packet [9, 9]) 0 10
      = ((retryLoop 1 (fun _ => .packet [9, 9]) 1 9).1 + 1,
         (retryLoop 1 (fun _ => .packet [9, 9]) 1 9).2) :=
  ⟨(awaitack_failure_handling 1 0 9 (fun _ => .readFailure)).1 rfl,
   (awaitack_failure_handling 1 0 9 (fun _ => .packet [9, 9])).2 [9, 9] rfl
     (by decide) (by decide)⟩

/-- Claim C6 (confirmed).  A client that never replies makes the session
transmit block 1 exactly `retries` times (the configured budget, 10 by
default) and then abort with nothing further sent; and against any
client behaviour whatsoever, no block is ever transmitted more than
`retries` times, the budget being reset at the start of each block. -/
theorem silent_client_retry_budget (payload : List Byte) (retries : Nat)
    (σ : Nat → Reply) :
    runSession payload retries (fun _ => .timeout)
      = ([⟨1, List.take 512 payload, retries⟩], .aborted) ∧
    ∀ b ∈ (runSession payload retries σ).1, b.count ≤ retries := by
  constructor
  · rw [runSession, runBlocks_eq_noadv payload retries (fun _ => .timeout) ⟨0, 0⟩ 0
      (by rw [retryLoop_timeout]; simp)]
    rw [retryLoop_timeout]
    simp
  · intro b hb
    exact runBlocks_count_le payload retries σ payload.length ⟨0, 0⟩ 0 (by simp) b hb

/-- Witness for `silent_client_retry_budget` on a 3-byte payload with
the default budget of 10; the bound is checked on the silent client's
own trace. -/
theorem silent_client_retry_budget_check :
    runSession [1, 2, 3] 10 (fun _ => .timeout)
      = ([⟨1, List.take 512 [1, 2, 3], 10⟩], .aborted) ∧
    ∀ b ∈ (runSession [1, 2, 3] 10 (fun _ => .timeout)).1, b.count ≤ 10 :=
  silent_client_retry_budget [1, 2, 3] 10 (fun _ => .timeout)

/-- Claim C7 (confirmed).  In `AwaitAck`, a reply that decodes as an
`Acknowledgment` whose block number differs from the current block's
consumes exactly one retry attempt and the loop re-enters on the same
block — one more transmission of the same Data packet, no advance; the
outcome is whatever the remaining attempts produce. -/
theorem mismatched_ack_consumes_retry (bn k fuel : Nat) (σ : Nat → Reply)
    (buf : List Byte) (a : Acknowledgment) (hp : σ k = .packet buf)
    (hdec : Acknowledgment.UnmarshalBinary buf = some a) (hne : a.BlockNum ≠ bn) :
    retryLoop bn σ k (fuel + 1)
      = ((retryLoop bn σ (k + 1) fuel).1 + 1, (retryLoop bn σ (k + 1) fuel).2) := by
  have hcl : classify bn (.packet buf) = .retryAttempt := by
    rcases buf with _ | ⟨b0, rest⟩
    · simp [Acknowledgment.UnmarshalBinary] at hdec
    rcases rest with _ | ⟨b1, rest2⟩
    · simp [Acknowledgment.UnmarshalBinary] at hdec
    by_cases hop : b0 * 256 + b1 = AcknowledgmentOp
    · have hcode : replyCode (b0 :: b1 :: rest2) = AcknowledgmentOp := hop
      simp only [classify, hcode, hdec]
      simp [hne]
    · simp [Acknowledgment.UnmarshalBinary, hop] at hdec
  simp [retryLoop, hp, hcl]

/-- Witness for `mismatched_ack_consumes_retry`: with a single remaining
attempt and an acknowledgment for block 1 while block 2 is current, the
attempt is consumed and the budget runs out. -/
theorem mismatched_ack_consumes_retry_check :
    retryLoop 2 (fun _ => .packet (ackBuf 1)) 0 1 = (1, .exhausted) := by
  rw [mismatched_ack_consumes_retry 2 0 0 (fun _ => .packet (ackBuf 1)) (ackBuf 1)
    ⟨1⟩ rfl (ackBuf_unmarshal 1 (by norm_num)) (by decide)]
  rfl

/-- Claim C8 (confirmed).  Each `Data.MarshalBinary` call increments the
session's block counter (mod 65536) before writing it into bytes 2–3 of
the packet, and for every client behaviour the sequence of block numbers
of the blocks a session sends is `1, 2, 3, ...` (mod 65536): the `i`-th
block sent carries number `(i + 1) % 65536`, strictly increasing by one
with no gaps. -/
theorem blocknum_sequence (payload : List Byte) (retries : Nat) (σ : Nat → Reply) :
    (∀ d : Data, (Data.MarshalBinary payload d).2.BlockNum = (d.BlockNum + 1) % 65536 ∧
      List.take 4 (Data.MarshalBinary payload d).1
        = u16be DataOp ++ u16be ((d.BlockNum + 1) % 65536)) ∧
    ∀ i (h : i < (runSession payload retries σ).1.length),
      ((runSession payload retries σ).1.get ⟨i, h⟩).num = (i + 1) % 65536 := by
  constructor
  · intro d
    refine ⟨rfl, ?_⟩
    simp [Data.MarshalBinary, u16be]
  · intro i h
    have h2 : i < (runBlocks payload retries σ ⟨0, 0⟩ 0).1.length := h
    have hq := runBlocks_get_num payload retries σ payload.length ⟨0, 0⟩ 0
      (by simp) i h2
    rw [List.get?_eq_get h2] at hq
    simpa [runSession] using hq

lemma runSession_timeout_nonempty :
    0 < (runSession [] 10 (fun _ => .timeout)).1.length := by
  rw [runSession, runBlocks_eq_noadv [] 10 (fun _ => .timeout) ⟨0, 0⟩ 0
    (by rw [retryLoop_timeout]; simp)]
  simp

/-- Witness for `blocknum_sequence`: the first (and only) block of an
empty payload served to a silent client carries number 1. -/
theorem blocknum_sequence_check :
    (Data.MarshalBinary [] ⟨0, 0⟩).2.BlockNum = (0 + 1) % 65536 ∧
    ((runSession [] 10 (fun _ => .timeout)).1.get
        ⟨0, runSession_timeout_nonempty⟩).num = (0 + 1) % 65536 :=
  ⟨((blocknum_sequence [] 10 (fun _ => .timeout)).1 ⟨0, 0⟩).1,
   (blocknum_sequence [] 10 (fun _ => .timeout)).2 0 _⟩

end TFTP
